import Mathlib

/-!
Verification of the dinasty descriptor-scoped transaction accounting engine.

This file shallowly embeds the core of the repository:

* `src/psbts_serde.rs` — the PSBT container codec (`serialize`/`deserialize`
  with the `psbts`/`0xFF` framing and the Bitcoin consensus varint count);
* `src/commands/details.rs` — `MyScripts` (script cache / ownership index),
  `psbt_detail` (the transaction classifier), `GroupDetail::merge` and the
  per-line text rendering;
* `src/commands/balance.rs` — `DescCache`, `balance_single` (the earlier
  classifier variant that `break`s after the first owned match) and
  `Balances::merge` (the strict merge variant);
* `src/commands/import.rs` — `explode_descriptor` (multipath explosion).

Machine integers (`u64` satoshi amounts) are modelled as `Nat`; the one
place where overflow decides a claim — the unchecked
`sum_inputs - sum_outputs` fee subtraction — is modelled explicitly: the
classifier result is wrapped in `Option`, with `none` standing for the
arithmetic-overflow panic (debug builds) / wrap (release builds) of the
Rust subtraction. External collaborators are parameters: descriptor
derivation is a function `Nat → Except ConversionError Script`, the PSBT
binary codec is a pair of functions over byte lists, descriptor parsing
is a function returning a key map, and address rendering is a function
`Script → String`.
-/

namespace Dinasty

/-! ## Bytes and the Bitcoin consensus varint

Bytes are `Nat` values (< 256 where produced by the encoder). The varint
is the consensus `CompactSize` encoding used by `VarInt` in
`psbts_serde.rs`: values below `0xFD` in one byte, otherwise a marker byte
`0xFD`/`0xFE`/`0xFF` followed by a 2/4/8-byte little-endian payload, with
non-minimal encodings rejected on decode. -/

/-- Little-endian bytes of `n`, `k` bytes wide (low byte first). -/
def leBytes : Nat → Nat → List Nat
  | 0, _ => []
  | k + 1, n => n % 256 :: leBytes k (n / 256)

/-- Value of a little-endian byte list. -/
def leVal : List Nat → Nat
  | [] => 0
  | b :: bs => b + 256 * leVal bs

/-- Read exactly `k` bytes off the front of a list, keeping the tail. -/
def readBytes : Nat → List Nat → Option (List Nat × List Nat)
  | 0, bs => some ([], bs)
  | _ + 1, [] => none
  | k + 1, b :: bs => (readBytes k bs).map (fun p => (b :: p.1, p.2))

/-- Errors of the consensus decoder (`bitcoin::consensus::encode::Error`):
an I/O read failure (truncated input) or a non-minimal varint. -/
inductive ConsensusError where
  | ioErr
  | nonMinimalVarInt
deriving DecidableEq, Repr

/-- Encoding of `VarInt(n)` (`consensus_encode`). -/
def varintEncode (n : Nat) : List Nat :=
  if n < 253 then [n]
  else if n < 2 ^ 16 then 253 :: leBytes 2 n
  else if n < 2 ^ 32 then 254 :: leBytes 4 n
  else 255 :: leBytes 8 n

/-- Decoding of a `VarInt` (`consensus_decode`): dispatch on the marker
byte, read the fixed-width little-endian payload, reject non-minimal
forms. -/
def varintDecode : List Nat → Except ConsensusError (Nat × List Nat)
  | [] => .error .ioErr
  | b :: rest =>
    if b = 255 then
      match readBytes 8 rest with
      | none => .error .ioErr
      | some (pay, rest2) =>
        if 2 ^ 32 ≤ leVal pay then .ok (leVal pay, rest2) else .error .nonMinimalVarInt
    else if b = 254 then
      match readBytes 4 rest with
      | none => .error .ioErr
      | some (pay, rest2) =>
        if 2 ^ 16 ≤ leVal pay then .ok (leVal pay, rest2) else .error .nonMinimalVarInt
    else if b = 253 then
      match readBytes 2 rest with
      | none => .error .ioErr
      | some (pay, rest2) =>
        if 253 ≤ leVal pay then .ok (leVal pay, rest2) else .error .nonMinimalVarInt
    else .ok (b, rest)

/-! ## PSBT container codec (`src/psbts_serde.rs`)

The PSBT values themselves and their canonical binary serialization are
provided by the `bitcoin` crate, an external collaborator: here they are a
type parameter `P` with a serializer `pser : P → List Nat` and a
deserializer `pdeser : List Nat → Except PE P` (the deserializer reads one
PSBT off the front of a buffer, tolerating trailing bytes, exactly as
`PartiallySignedTransaction::deserialize` is used by `deserialize`). -/

/-- `MAGIC = b"psbts"` (`p`, `s`, `b`, `t`, `s`). -/
def MAGIC : List Nat := [112, 115, 98, 116, 115]

/-- `SEPARATOR = 0xff`. -/
def SEPARATOR : Nat := 255

/-- `DecodeError` of `psbts_serde.rs`, parameterized by the error type of
the external PSBT deserializer. -/
inductive DecodeError (PE : Type) where
  | consensusDecode (e : ConsensusError)
  | psbtDecode (e : PE)
  | wrongMagic (m : List Nat)
  | wrongSeparator
deriving DecidableEq, Repr

/-- `serialize`: magic, separator, varint count, then each PSBT's
canonical serialization back-to-back. -/
def serialize {P : Type} (pser : P → List Nat) (psbts : List P) : List Nat :=
  MAGIC ++ [SEPARATOR] ++ varintEncode psbts.length ++ (psbts.map pser).flatten

/-- The decode loop of `deserialize`: `count` iterations, each decoding
one PSBT from the current position and advancing by the length of that
PSBT's re-serialization (`bytes_read += psbt.serialize().len()`). -/
def decodeLoop {P PE : Type} (pser : P → List Nat) (pdeser : List Nat → Except PE P) :
    Nat → List Nat → Except (DecodeError PE) (List P)
  | 0, _ => .ok []
  | k + 1, bs =>
    match pdeser bs with
    | .error e => .error (.psbtDecode e)
    | .ok p =>
      match decodeLoop pser pdeser k (bs.drop (pser p).length) with
      | .error e => .error e
      | .ok ps => .ok (p :: ps)

/-- `deserialize`: read and check the 5-byte magic, read and check the
separator byte, decode the varint count, then run the decode loop.
Truncated reads surface as consensus I/O errors. -/
def deserialize {P PE : Type} (pser : P → List Nat) (pdeser : List Nat → Except PE P)
    (bytes : List Nat) : Except (DecodeError PE) (List P) :=
  match readBytes 5 bytes with
  | none => .error (.consensusDecode .ioErr)
  | some (magic, rest) =>
    if magic ≠ MAGIC then .error (.wrongMagic magic)
    else
      match rest with
      | [] => .error (.consensusDecode .ioErr)
      | sep :: rest2 =>
        if sep ≠ SEPARATOR then .error .wrongSeparator
        else
          match varintDecode rest2 with
          | .error e => .error (.consensusDecode e)
          | .ok (len, rest3) => decodeLoop pser pdeser len rest3

/-- A toy PSBT "serializer" used to instantiate the codec theorems at
concrete inputs: a value is one byte. -/
def toySer : Nat → List Nat := fun n => [n]

/-- The matching toy deserializer: read one byte off the front, tolerate
trailing bytes, fail on empty input. -/
def toyDeser : List Nat → Except Nat Nat := fun bs =>
  match bs with
  | [] => .error 0
  | b :: _ => .ok b

/-! ## Scripts, descriptors and the ownership index
(`MyScripts` in `src/commands/details.rs`, `DescCache` in
`src/commands/balance.rs`)

A script-pubkey is opaque (`Nat`); a descriptor is its canonical string
plus its derivation capability (`at_derivation_index(i)` followed by
`script_pubkey()`), an external collaborator modelled as a function that
either yields the script at an index or fails with a `ConversionError`
(opaque `Nat`). -/

/-- Opaque script-pubkey (`ScriptBuf`). -/
abbrev Script := Nat

/-- Opaque `miniscript::descriptor::ConversionError`. -/
abbrev ConversionError := Nat

/-- A descriptor: canonical string form plus per-index derivation. -/
structure Descriptor where
  name : String
  derive : Nat → Except ConversionError Script

/-- `HashSet::insert`: set-semantics insertion into the script cache. -/
def insertScript (cache : List Script) (s : Script) : List Script :=
  if s ∈ cache then cache else cache ++ [s]

/-- `MyScripts` (`details.rs`): descriptor strings, shared script cache,
and the per-descriptor derivation horizon. -/
structure MyScripts where
  descriptors : List String
  cache : List Script
  how_many_per_desc : Nat
deriving DecidableEq

/-- `MyScripts::new`. -/
def MyScripts.new (how_many_per_desc : Nat) : MyScripts :=
  { descriptors := [], cache := [], how_many_per_desc := how_many_per_desc }

/-- The loop body of `MyScripts::add`: derive indices
`start, start+1, …` (`k` of them), inserting each derived script into the
cache; on the first derivation failure stop, returning the cache as
mutated so far together with the error. -/
def MyScripts.addFrom (d : Descriptor) : Nat → Nat → List Script → List Script × Option ConversionError
  | _, 0, cache => (cache, none)
  | i, k + 1, cache =>
    match d.derive i with
    | .error e => (cache, some e)
    | .ok s => MyScripts.addFrom d (i + 1) k (insertScript cache s)

/-- `MyScripts::add`: run the derivation loop over `0..how_many_per_desc`;
on success also record the descriptor's string. On failure the `?`
operator returns early: the descriptor string is not recorded, but the
cache keeps any scripts inserted before the failing index. -/
def MyScripts.add (ms : MyScripts) (d : Descriptor) : MyScripts × Option ConversionError :=
  match MyScripts.addFrom d 0 ms.how_many_per_desc ms.cache with
  | (cache2, none) =>
    ({ descriptors := ms.descriptors ++ [d.name], cache := cache2,
       how_many_per_desc := ms.how_many_per_desc }, none)
  | (cache2, some e) =>
    ({ descriptors := ms.descriptors, cache := cache2,
       how_many_per_desc := ms.how_many_per_desc }, some e)

/-- `MyScripts::contains`. -/
def MyScripts.contains (ms : MyScripts) (script_pubkey : Script) : Bool :=
  ms.cache.contains script_pubkey

/-- `DescCache` (`balance.rs`): one descriptor string and its script cache. -/
structure DescCache where
  descriptor : String
  cache : List Script
deriving DecidableEq

/-- The loop of `DescCache::new`, building the cache for indices
`start, start+1, …` (`k` of them); the first derivation failure aborts
the whole construction. -/
def DescCache.newLoop (d : Descriptor) : Nat → Nat → List Script → Except ConversionError (List Script)
  | _, 0, cache => .ok cache
  | i, k + 1, cache =>
    match d.derive i with
    | .error e => .error e
    | .ok s => DescCache.newLoop d (i + 1) k (insertScript cache s)

/-- `DescCache::new`: derive `0..how_many`, then record the descriptor
string; failure yields no cache value at all. -/
def DescCache.new (d : Descriptor) (how_many : Nat) : Except ConversionError DescCache :=
  match DescCache.newLoop d 0 how_many [] with
  | .error e => .error e
  | .ok cache => .ok { descriptor := d.name, cache := cache }

/-- `DescCache::contains`. -/
def DescCache.contains (dc : DescCache) (script_pubkey : Script) : Bool :=
  dc.cache.contains script_pubkey

/-! ## PSBT data model and rendering (`src/commands/details.rs`)

A PSBT is modelled by what the classifier reads from it: per input the
optional witness UTXO, the partial-signature map, and the rendering of
`tx.input[i].previous_output` of the extracted transaction; plus the
extracted transaction's outputs and the rendering of its txid.
`Address::from_script(spk, network)` is an external collaborator,
modelled as a function `Script → String`. -/

/-- `TxOut`: value in satoshi plus script-pubkey. -/
structure TxOut where
  value : Nat
  script_pubkey : Script
deriving DecidableEq

/-- One PSBT input as read by the classifier. -/
structure PsbtInput where
  witness_utxo : Option TxOut
  partial_sigs : List Nat
  previous_output : String
deriving DecidableEq

/-- A PSBT, restricted to the data the accounting engine reads. -/
structure Psbt where
  inputs : List PsbtInput
  outputs : List TxOut
  txid : String
deriving DecidableEq

/-- `BalanceError` of `details.rs`. -/
inductive BalanceError where
  | missingWitnessUtxo (i : Nat)
  | conversion (e : ConversionError)
deriving DecidableEq

/-- Right-justify a string to width `w` with spaces (the `{:>w}` format). -/
def rjust (w : Nat) (s : String) : String :=
  String.mk (List.replicate (w - s.length) ' ') ++ s

/-- Left-pad a string to width `w` with zeros. -/
def padZeros (w : Nat) (s : String) : String :=
  String.mk (List.replicate (w - s.length) '0') ++ s

/-- `amount8(satoshi)`: the BTC amount right-aligned to 13 columns with 9
decimal digits (`{:>13.9}` of `Amount::to_btc`), rendered exactly: the
integer BTC part, a dot, the 8 satoshi digits and a trailing zero. -/
def amount8 (satoshi : Nat) : String :=
  rjust 13 (toString (satoshi / 100000000) ++ "." ++ padZeros 8 (toString (satoshi % 100000000)) ++ "0")

/-- One rendered input line:
`format!("in{:>3}: {} {}{}", i, amount8(v), prevout, if mine { " *" } else { "" })`. -/
def inLine (idx : Nat) (value : Nat) (prevout : String) (mine : Bool) : String :=
  "in" ++ rjust 3 (toString idx) ++ ": " ++ amount8 value ++ " " ++ prevout
    ++ (if mine then " *" else "")

/-- One rendered output line:
`format!("out{:>2}: {} {}{}", i, amount8(v), address, if mine { " *" } else { "" })`. -/
def outLine (idx : Nat) (value : Nat) (address : String) (mine : Bool) : String :=
  "out" ++ rjust 2 (toString idx) ++ ": " ++ amount8 value ++ " " ++ address
    ++ (if mine then " *" else "")

/-- `PsbtDetail` of `details.rs`. -/
structure PsbtDetail where
  i : Nat
  txid : String
  descriptors : List String
  outgoing : Nat
  incoming : Nat
  fee : Nat
  inputs : List String
  outputs : List String
deriving DecidableEq

/-- The input loop of `psbt_detail`, starting at index `start`: require a
witness UTXO per input (else `MissingWitnessUtxo`), and accumulate
`(sum_inputs, outgoing, rendered lines)` over ALL inputs. -/
def processInputs (ms : MyScripts) : Nat → List PsbtInput → Except BalanceError (Nat × Nat × List String)
  | _, [] => .ok (0, 0, [])
  | idx, inp :: rest =>
    match inp.witness_utxo with
    | none => .error (.missingWitnessUtxo idx)
    | some txo =>
      match processInputs ms (idx + 1) rest with
      | .error e => .error e
      | .ok (sumIn, outgoing, lines) =>
        .ok (txo.value + sumIn,
             (if MyScripts.contains ms txo.script_pubkey then txo.value else 0) + outgoing,
             inLine idx txo.value inp.previous_output (MyScripts.contains ms txo.script_pubkey)
               :: lines)

/-- The output loop of `psbt_detail`, starting at index `start`:
accumulate `(sum_outputs, incoming, rendered lines)` over ALL outputs. -/
def processOutputs (ms : MyScripts) (addr : Script → String) : Nat → List TxOut → Nat × Nat × List String
  | _, [] => (0, 0, [])
  | idx, txo :: rest =>
    let triple := processOutputs ms addr (idx + 1) rest
    (txo.value + triple.1,
     (if MyScripts.contains ms txo.script_pubkey then txo.value else 0) + triple.2.1,
     outLine idx txo.value (addr txo.script_pubkey) (MyScripts.contains ms txo.script_pubkey)
       :: triple.2.2)

/-- `psbt_detail` (`details.rs`): scan all inputs and all outputs, then
build the detail record with `fee = sum_inputs - sum_outputs`. The Rust
subtraction is an unchecked `u64` subtraction: when
`sum_outputs > sum_inputs` it panics (debug) / wraps (release), modelled
as `none`; every returned value (`Ok` or a `BalanceError`) is `some`. -/
def psbt_detail (i : Nat) (psbt : Psbt) (ms : MyScripts) (addr : Script → String) :
    Option (Except BalanceError PsbtDetail) :=
  match processInputs ms 0 psbt.inputs with
  | .error e => some (.error e)
  | .ok (sumIn, outgoing, inLines) =>
    let outTriple := processOutputs ms addr 0 psbt.outputs
    if outTriple.1 ≤ sumIn then
      some (.ok { i := i, txid := psbt.txid, descriptors := ms.descriptors,
                  outgoing := outgoing, incoming := outTriple.2.1,
                  fee := sumIn - outTriple.1,
                  inputs := inLines, outputs := outTriple.2.2 })
    else none

/-- `GroupDetail` of `details.rs`. -/
structure GroupDetail where
  details : List PsbtDetail
  outgoing : Nat
  incoming : Nat
  fee : Nat
deriving DecidableEq

/-- `GroupDetail::default()`. -/
def GroupDetail.empty : GroupDetail :=
  { details := [], outgoing := 0, incoming := 0, fee := 0 }

/-- `GroupDetail::merge`: add the detail's totals into the running totals
and append the detail. -/
def GroupDetail.merge (g : GroupDetail) (other : PsbtDetail) : GroupDetail :=
  { details := g.details ++ [other],
    outgoing := g.outgoing + other.outgoing,
    incoming := g.incoming + other.incoming,
    fee := g.fee + other.fee }

/-- `GroupDetail::net_balance`: `incoming - outgoing` over signed amounts. -/
def GroupDetail.net_balance (g : GroupDetail) : Int :=
  (g.incoming : Int) - (g.outgoing : Int)

/-- Strip the partial signatures from an input (used to state that the
classifier never reads them). -/
def stripSigs (inp : PsbtInput) : PsbtInput :=
  { inp with partial_sigs := [] }

/-- Project the success value out of a classifier result. -/
def okPart {E A : Type} : Option (Except E A) → Option A
  | some (.ok a) => some a
  | _ => none

/-! ## The earlier classifier variant (`src/commands/balance.rs`) -/

/-- `BalanceError` of `balance.rs`. -/
inductive BalError where
  | todo
  | conversion (e : ConversionError)
  | mergeSame
  | sameTxidDifferentFee
deriving DecidableEq

/-- `Balance` of `balance.rs`. -/
structure Balance where
  txid : String
  descriptor : String
  outgoing : Nat
  incoming : Nat
  fee : Nat
deriving DecidableEq

/-- The input loop of `balance_single`: missing witness UTXO is
`Todo`; the loop `break`s at the first owned input, so the input sum
stops accumulating there too. -/
def bsInputs (dc : DescCache) : List PsbtInput → Except BalError (Nat × Nat)
  | [] => .ok (0, 0)
  | inp :: rest =>
    match inp.witness_utxo with
    | none => .error .todo
    | some txo =>
      if DescCache.contains dc txo.script_pubkey then .ok (txo.value, txo.value)
      else
        match bsInputs dc rest with
        | .error e => .error e
        | .ok (sumIn, outgoing) => .ok (txo.value + sumIn, outgoing)

/-- The output loop of `balance_single`: `break`s at the first owned
output, so the output sum stops accumulating there too. -/
def bsOutputs (dc : DescCache) : List TxOut → Nat × Nat
  | [] => (0, 0)
  | txo :: rest =>
    if DescCache.contains dc txo.script_pubkey then (txo.value, txo.value)
    else
      match bsOutputs dc rest with
      | (sumOut, incoming) => (txo.value + sumOut, incoming)

/-- `balance_single` (`balance.rs`): the early-`break` classifier. The
final `sum_inputs - sum_outputs` is the same unchecked `u64` subtraction
as in `psbt_detail` (`none` models the panic/wrap). -/
def balance_single (psbt : Psbt) (dc : DescCache) : Option (Except BalError Balance) :=
  match bsInputs dc psbt.inputs with
  | .error e => some (.error e)
  | .ok (sumIn, outgoing) =>
    let outPair := bsOutputs dc psbt.outputs
    if outPair.1 ≤ sumIn then
      some (.ok { txid := psbt.txid, descriptor := dc.descriptor,
                  outgoing := outgoing, incoming := outPair.2,
                  fee := sumIn - outPair.1 })
    else none

/-- `Balances` of `balance.rs`: the txid → descriptor-strings map
(`HashMap` modelled as an association list) plus running totals. -/
structure Balances where
  txids_descriptors : List (String × List String)
  outgoing : Nat
  incoming : Nat
  fee : Nat
deriving DecidableEq

/-- Replace the binding of `k` in an association list. -/
def alSet {β : Type} : List (String × β) → String → β → List (String × β)
  | [], k, v => [(k, v)]
  | (k0, v0) :: t, k, v => if k0 = k then (k, v) :: t else (k0, v0) :: alSet t k v

/-- `Balances::merge` (the strict variant): if the txid is known and the
descriptor already recorded for it, fail with `MergeSame` leaving the
state untouched; if the txid is known under other descriptors, add
outgoing/incoming but NOT the fee; if the txid is new, add everything and
create the binding. The Rust method takes `&mut self`; the returned
`Balances` is the state after the call. -/
def Balances.merge (b : Balances) (other : Balance) : Balances × Option BalError :=
  match b.txids_descriptors.lookup other.txid with
  | some descs =>
    if other.descriptor ∈ descs then (b, some .mergeSame)
    else
      ({ txids_descriptors := alSet b.txids_descriptors other.txid (descs ++ [other.descriptor]),
         outgoing := b.outgoing + other.outgoing,
         incoming := b.incoming + other.incoming,
         fee := b.fee }, none)
  | none =>
    ({ txids_descriptors := b.txids_descriptors ++ [(other.txid, [other.descriptor])],
       outgoing := b.outgoing + other.outgoing,
       incoming := b.incoming + other.incoming,
       fee := b.fee + other.fee }, none)

/-! ## Multipath explosion (`src/commands/import.rs`)

Descriptor strings are `List Char`. `str::replace` (replace every
non-overlapping occurrence, left to right) is `replaceAll`;
`str::contains` is `containsSlice`. `Descriptor::parse_descriptor` is an
external collaborator returning a key map, modelled as a function from
the descriptor string to `Except e keyMap` where the key map is the list
of secret-key entries (only emptiness is inspected). -/

/-- `MULTIPATH = "<0;1>"`. -/
def MULTIPATH : List Char := ['<', '0', ';', '1', '>']

/-- Fuelled worker for `replaceAll`. Each step consumes at least one
character, so fuel equal to the list length (as supplied by
`replaceAll`) never runs out; the `0, l => l` branch is unreachable for
the lengths actually passed. -/
def replaceAllF (pat rep : List Char) : Nat → List Char → List Char
  | _, [] => []
  | 0, l => l
  | fuel + 1, c :: rest =>
    if pat ≠ [] ∧ pat.isPrefixOf (c :: rest) then
      rep ++ replaceAllF pat rep fuel ((c :: rest).drop pat.length)
    else c :: replaceAllF pat rep fuel rest

/-- `str::replace(pat, rep)`: replace every non-overlapping occurrence of
`pat` by `rep`, scanning left to right. -/
def replaceAll (pat rep l : List Char) : List Char :=
  replaceAllF pat rep l.length l

/-- `str::contains(pat)`: does `pat` occur as a contiguous slice? -/
def containsSlice (pat : List Char) : List Char → Bool
  | [] => pat.isEmpty
  | c :: rest => pat.isPrefixOf (c :: rest) || containsSlice pat rest

/-- `ImportError` of `import.rs` (the variants `explode_descriptor` can
produce; the miniscript parse error is opaque). -/
inductive ImportError where
  | miniscript (e : Nat)
  | descriptorIsntMultipath
  | withPrivateKeyFlagButPublicDescriptor
  | withoutPrivateKeyFlagButSecretDescriptor
  | cannotImport
deriving DecidableEq

/-- `ExplodedDesc`: the `/1/` (internal) and `/0/` (external) variants. -/
structure ExplodedDesc where
  internal : List Char
  external : List Char
deriving DecidableEq

/-- `explode_descriptor` (`import.rs`): require the multipath marker,
substitute it by `0` (external) and `1` (internal), parse the external
variant for its key map, and check private-key presence against the
`with_private_keys` flag. -/
def explode_descriptor (parseDesc : List Char → Except Nat (List Nat))
    (desc : List Char) (with_private_keys : Bool) : Except ImportError ExplodedDesc :=
  if !(containsSlice MULTIPATH desc) then .error .descriptorIsntMultipath
  else
    let external := replaceAll MULTIPATH ['0'] desc
    let internal := replaceAll MULTIPATH ['1'] desc
    match parseDesc external with
    | .error e => .error (.miniscript e)
    | .ok key_map =>
      if with_private_keys && key_map.isEmpty then
        .error .withPrivateKeyFlagButPublicDescriptor
      else if !with_private_keys && !key_map.isEmpty then
        .error .withoutPrivateKeyFlagButSecretDescriptor
      else .ok { internal := internal, external := external }

/-- A parse oracle that accepts every string with a one-entry key map
(a secret descriptor), for instantiating the explosion theorems. -/
def parseOk : List Char → Except Nat (List Nat) := fun _ => .ok [1]

/-! ## Concrete fixtures for the closed evaluations -/

/-- Address rendering oracle for the fixtures. -/
def addr0 : Script → String := fun s => "addr" ++ toString s

/-- Ownership index owning scripts 1–4 (as after adding one descriptor). -/
def msAll : MyScripts :=
  { descriptors := ["d0"], cache := [1, 2, 3, 4], how_many_per_desc := 1000 }

/-- The same cache as a `DescCache`. -/
def dcAll : DescCache := { descriptor := "d0", cache := [1, 2, 3, 4] }

/-- A PSBT with two owned inputs (100 and 200 sat) and two owned outputs
(50 and 60 sat); every input carries a witness UTXO. -/
def psbtTwo : Psbt :=
  { inputs :=
      [ { witness_utxo := some { value := 100, script_pubkey := 1 },
          partial_sigs := [], previous_output := "aa:0" },
        { witness_utxo := some { value := 200, script_pubkey := 2 },
          partial_sigs := [], previous_output := "bb:1" } ],
    outputs := [ { value := 50, script_pubkey := 3 }, { value := 60, script_pubkey := 4 } ],
    txid := "t0" }

/-- An ownership index owning nothing. -/
def msNone : MyScripts := MyScripts.new 1000

/-- A PSBT whose single output (200 sat) exceeds its single input
(100 sat); the input carries a witness UTXO. -/
def psbtOver : Psbt :=
  { inputs :=
      [ { witness_utxo := some { value := 100, script_pubkey := 1 },
          partial_sigs := [], previous_output := "cc:0" } ],
    outputs := [ { value := 200, script_pubkey := 9 } ],
    txid := "t1" }

/-- A descriptor whose derivation succeeds at index 0 (script 42) and
fails (error 7) at every later index. -/
def dBad : Descriptor :=
  { name := "dbad", derive := fun i => if i = 0 then .ok 42 else .error 7 }

/-- An empty ownership index with horizon 2. -/
def msTwo : MyScripts :=
  { descriptors := [], cache := [], how_many_per_desc := 2 }

/-- A descriptor whose derivation fails (error 5) at every index. -/
def dFail0 : Descriptor := { name := "df", derive := fun _ => .error 5 }

/-- A PSBT with one owned input carrying a partial signature, and one
owned output. -/
def psbtSig : Psbt :=
  { inputs :=
      [ { witness_utxo := some { value := 1000, script_pubkey := 5 },
          partial_sigs := [1], previous_output := "pp:0" } ],
    outputs := [ { value := 600, script_pubkey := 6 } ],
    txid := "t2" }

/-- Ownership index owning scripts 5 and 6. -/
def msC : MyScripts :=
  { descriptors := ["d1"], cache := [5, 6], how_many_per_desc := 1000 }

/-- The detail record `psbt_detail` produces for `psbtSig` over `msC`. -/
def detailSig : PsbtDetail :=
  { i := 0, txid := "t2", descriptors := ["d1"], outgoing := 1000, incoming := 600,
    fee := 400,
    inputs := ["in  0:   0.000010000 pp:0 *"],
    outputs := ["out 0:   0.000006000 addr6 *"] }

/-- Two detail records for the merge witnesses. -/
def gdA : PsbtDetail :=
  { i := 0, txid := "a", descriptors := [], outgoing := 1, incoming := 2, fee := 3,
    inputs := [], outputs := [] }

/-- Second detail record for the merge witnesses. -/
def gdB : PsbtDetail :=
  { i := 1, txid := "b", descriptors := [], outgoing := 4, incoming := 5, fee := 6,
    inputs := [], outputs := [] }

/-- A `Balances` state with one recorded transaction. -/
def bW : Balances :=
  { txids_descriptors := [("t", ["d0"])], outgoing := 10, incoming := 20, fee := 5 }

/-- A `Balance` for the already-recorded (txid, descriptor) pair. -/
def balSame : Balance :=
  { txid := "t", descriptor := "d0", outgoing := 1, incoming := 2, fee := 3 }

/-- A `Balance` for the recorded txid under a new descriptor. -/
def balOther : Balance :=
  { txid := "t", descriptor := "d1", outgoing := 1, incoming := 2, fee := 3 }

/-! ## Byte-level and varint lemmas -/

theorem leBytes_length (k n : Nat) : (leBytes k n).length = k := by
  induction k generalizing n with
  | zero => rfl
  | succ k ih => simp [leBytes, ih]

theorem readBytes_append (k : Nat) (l rest : List Nat) (h : l.length = k) :
    readBytes k (l ++ rest) = some (l, rest) := by
  induction k generalizing l with
  | zero =>
    have : l = [] := List.length_eq_zero.mp h
    subst this; rfl
  | succ k ih =>
    match l with
    | [] => simp at h
    | b :: t =>
      simp only [List.length_cons, Nat.succ.injEq] at h
      simp [readBytes, ih t h]

theorem leVal_leBytes (k n : Nat) : leVal (leBytes k n) = n % 256 ^ k := by
  induction k generalizing n with
  | zero => simp [leBytes, leVal, Nat.mod_one]
  | succ k ih =>
    have hm : n % (256 * 256 ^ k) = n % 256 + 256 * (n / 256 % 256 ^ k) := Nat.mod_mul
    simp only [leBytes, leVal, ih]
    rw [pow_succ, mul_comm (256 ^ k) 256, hm]

theorem varintDecode_varintEncode (n : Nat) (hn : n < 2 ^ 64) (rest : List Nat) :
    varintDecode (varintEncode n ++ rest) = .ok (n, rest) := by
  unfold varintEncode
  split_ifs with h1 h2 h3
  · have hb255 : n ≠ 255 := by omega
    have hb254 : n ≠ 254 := by omega
    have hb253 : n ≠ 253 := by omega
    simp [varintDecode, hb255, hb254, hb253]
  · have hr : readBytes 2 (leBytes 2 n ++ rest) = some (leBytes 2 n, rest) :=
      readBytes_append 2 _ rest (leBytes_length 2 n)
    have hv : leVal (leBytes 2 n) = n := by
      rw [leVal_leBytes]
      exact Nat.mod_eq_of_lt (by norm_num at h2 ⊢; omega)
    simp [varintDecode, hr, hv, Nat.not_lt.mp h1]
  · have hr : readBytes 4 (leBytes 4 n ++ rest) = some (leBytes 4 n, rest) :=
      readBytes_append 4 _ rest (leBytes_length 4 n)
    have hv : leVal (leBytes 4 n) = n := by
      rw [leVal_leBytes]
      exact Nat.mod_eq_of_lt (by norm_num at h3 ⊢; omega)
    have hge : (65536 : Nat) ≤ n := by
      have := Nat.not_lt.mp h2; norm_num at this; exact this
    simp [varintDecode, hr, hv, hge]
  · have hr : readBytes 8 (leBytes 8 n ++ rest) = some (leBytes 8 n, rest) :=
      readBytes_append 8 _ rest (leBytes_length 8 n)
    have hv : leVal (leBytes 8 n) = n := by
      rw [leVal_leBytes]
      exact Nat.mod_eq_of_lt (by norm_num at hn ⊢; omega)
    have hge : (4294967296 : Nat) ≤ n := by
      have := Nat.not_lt.mp h3; norm_num at this; exact this
    simp [varintDecode, hr, hv, hge]

theorem decodeLoop_flatten {P PE : Type} (pser : P → List Nat)
    (pdeser : List Nat → Except PE P) (psbts : List P)
    (hp : ∀ p ∈ psbts, ∀ rest, pdeser (pser p ++ rest) = .ok p) :
    decodeLoop pser pdeser psbts.length (psbts.map pser).flatten = .ok psbts := by
  induction psbts with
  | nil => rfl
  | cons p t ih =>
    have hphead : pdeser (pser p ++ (t.map pser).flatten) = .ok p :=
      hp p (List.mem_cons_self p t) _
    have hrec : decodeLoop pser pdeser t.length (t.map pser).flatten = .ok t :=
      ih (fun q hq rest => hp q (List.mem_cons_of_mem p hq) rest)
    simp only [List.map_cons, List.flatten_cons, List.length_cons, decodeLoop, hphead,
      List.drop_left, hrec]

/-- C3: for every non-empty sequence of valid PSBTs (instances whose
canonical serialization round-trips off the front of any buffer),
decoding the encoding of the sequence succeeds and returns a sequence
equal to the original: `deserialize (serialize psbts) = ok psbts`. -/
theorem deserialize_serialize_roundtrip {P PE : Type} (pser : P → List Nat)
    (pdeser : List Nat → Except PE P) (psbts : List P)
    (_hne : psbts ≠ []) (hlen : psbts.length < 2 ^ 64)
    (hp : ∀ p ∈ psbts, ∀ rest, pdeser (pser p ++ rest) = .ok p) :
    deserialize pser pdeser (serialize pser psbts) = .ok psbts := by
  have h5 : readBytes 5
      (MAGIC ++ SEPARATOR :: (varintEncode psbts.length ++ (psbts.map pser).flatten))
      = some (MAGIC, SEPARATOR :: (varintEncode psbts.length ++ (psbts.map pser).flatten)) :=
    readBytes_append 5 MAGIC _ rfl
  have hv := varintDecode_varintEncode psbts.length hlen (psbts.map pser).flatten
  have hloop := decodeLoop_flatten pser pdeser psbts hp
  simp only [serialize, List.append_assoc]
  simp [deserialize, h5, hv, hloop]

/-- Witness for the codec round-trip: the toy one-byte codec on the
two-element sequence `[7, 9]`. -/
theorem deserialize_serialize_roundtrip_witness :
    deserialize toySer toyDeser (serialize toySer [7, 9]) = .ok [7, 9] :=
  deserialize_serialize_roundtrip toySer toyDeser [7, 9] (by decide) (by norm_num)
    (fun p _ rest => rfl)

/-- C9: decode error paths. A 5-byte read differing from `b"psbts"`
yields `WrongMagic` carrying exactly the bytes read; with a correct
magic, a sixth byte other than `0xFF` yields `WrongSeparator`; a corrupt
or truncated varint surfaces as `ConsensusDecode` wrapping the varint
error; a PSBT body the underlying deserializer rejects surfaces as
`PsbtDecode` wrapping that error — never repaired. -/
theorem deserialize_error_paths {P PE : Type} (pser : P → List Nat)
    (pdeser : List Nat → Except PE P) :
    (∀ m rest, m.length = 5 → m ≠ MAGIC →
       deserialize pser pdeser (m ++ rest) = .error (.wrongMagic m)) ∧
    (∀ b rest, b ≠ SEPARATOR →
       deserialize pser pdeser (MAGIC ++ b :: rest) = .error .wrongSeparator) ∧
    (∀ rest e, varintDecode rest = .error e →
       deserialize pser pdeser (MAGIC ++ SEPARATOR :: rest) = .error (.consensusDecode e)) ∧
    (∀ rest n rest2 e, varintDecode rest = .ok (n + 1, rest2) → pdeser rest2 = .error e →
       deserialize pser pdeser (MAGIC ++ SEPARATOR :: rest) = .error (.psbtDecode e)) := by
  refine ⟨?_, ?_, ?_, ?_⟩
  · intro m rest h5 hm
    have hr := readBytes_append 5 m rest h5
    simp [deserialize, hr, hm]
  · intro b rest hb
    have hr := readBytes_append 5 MAGIC (b :: rest) rfl
    simp [deserialize, hr, hb]
  · intro rest e he
    have hr := readBytes_append 5 MAGIC (SEPARATOR :: rest) rfl
    simp [deserialize, hr, he]
  · intro rest n rest2 e hv hpe
    have hr := readBytes_append 5 MAGIC (SEPARATOR :: rest) rfl
    simp [deserialize, hr, hv, decodeLoop, hpe]

/-- Witness for the decode error paths, at concrete byte strings over the
toy codec. -/
theorem deserialize_error_paths_witness :
    deserialize toySer toyDeser ([0, 0, 0, 0, 0] ++ []) = .error (.wrongMagic [0, 0, 0, 0, 0]) ∧
    deserialize toySer toyDeser (MAGIC ++ 0 :: []) = .error .wrongSeparator ∧
    deserialize toySer toyDeser (MAGIC ++ SEPARATOR :: []) = .error (.consensusDecode .ioErr) ∧
    deserialize toySer toyDeser (MAGIC ++ SEPARATOR :: [1]) = .error (.psbtDecode 0) :=
  ⟨(deserialize_error_paths toySer toyDeser).1 [0, 0, 0, 0, 0] [] (by decide) (by decide),
   (deserialize_error_paths toySer toyDeser).2.1 0 [] (by decide),
   (deserialize_error_paths toySer toyDeser).2.2.1 [] ConsensusError.ioErr rfl,
   (deserialize_error_paths toySer toyDeser).2.2.2 [1] 0 [] 0 rfl rfl⟩

/-! ## Classifier evaluations (C1, C2) -/

/-- C1: the fixed classifier `psbt_detail` scans every input and output —
on a PSBT with two owned inputs (100+200 sat) and two owned outputs
(50+60 sat) it reports outgoing 300, incoming 110 and fee 190 — while the
earlier variant `balance_single` `break`s after the first owned match on
the same PSBT, reporting outgoing 100, incoming 50 and fee 50: the claim
that the classifier never terminates early is the intent the repository's
`details.rs` implements and its `balance.rs` violates. -/
theorem balance_single_early_break_undercounts :
    (okPart (psbt_detail 0 psbtTwo msAll addr0)).map PsbtDetail.outgoing = some 300 ∧
    (okPart (psbt_detail 0 psbtTwo msAll addr0)).map PsbtDetail.incoming = some 110 ∧
    (okPart (psbt_detail 0 psbtTwo msAll addr0)).map PsbtDetail.fee = some 190 ∧
    (okPart (balance_single psbtTwo dcAll)).map Balance.outgoing = some 100 ∧
    (okPart (balance_single psbtTwo dcAll)).map Balance.incoming = some 50 ∧
    (okPart (balance_single psbtTwo dcAll)).map Balance.fee = some 50 := by
  decide

/-- C2: on a PSBT whose inputs all carry a witness UTXO but whose output
sum (200 sat) exceeds its input sum (100 sat), the classifier hits the
unchecked `u64` subtraction `sum_inputs - sum_outputs` — a panic (debug)
/ wrap (release), modelled `none` — instead of returning a
data-integrity error; when the output sum does not exceed the input sum
the fee is exactly `sum(inputs) − sum(outputs)` (here `300 − 110`). -/
theorem psbt_detail_fee_underflow_panics :
    psbtOver.inputs.all (fun inp => inp.witness_utxo.isSome) = true ∧
    psbt_detail 0 psbtOver msNone addr0 = none ∧
    (okPart (psbt_detail 0 psbtTwo msAll addr0)).map PsbtDetail.fee = some (300 - 110) :=
  ⟨by decide, rfl, by decide⟩

/-! ## Group merge totals (C5) -/

theorem foldl_merge_totals (l : List PsbtDetail) : ∀ g : GroupDetail,
    (l.foldl GroupDetail.merge g).outgoing = g.outgoing + (l.map PsbtDetail.outgoing).sum ∧
    (l.foldl GroupDetail.merge g).incoming = g.incoming + (l.map PsbtDetail.incoming).sum ∧
    (l.foldl GroupDetail.merge g).fee = g.fee + (l.map PsbtDetail.fee).sum := by
  induction l with
  | nil => intro g; simp
  | cons d t ih =>
    intro g
    have h := ih (GroupDetail.merge g d)
    simpa [GroupDetail.merge, Nat.add_assoc] using h

/-- C5: merging any sequence of `PsbtDetail` records into any
`GroupDetail` accumulates exactly the sums of the outgoing, incoming and
fee fields (so the invariant holds after every individual merge, the
starting group being arbitrary); the derived net balance equals total
incoming minus total outgoing; and the totals are independent of the
merge order (any permutation of the records yields the same totals). -/
theorem groupDetail_merge_totals (g : GroupDetail) (l l2 : List PsbtDetail)
    (hperm : l.Perm l2) :
    ((l.foldl GroupDetail.merge g).outgoing = g.outgoing + (l.map PsbtDetail.outgoing).sum ∧
     (l.foldl GroupDetail.merge g).incoming = g.incoming + (l.map PsbtDetail.incoming).sum ∧
     (l.foldl GroupDetail.merge g).fee = g.fee + (l.map PsbtDetail.fee).sum) ∧
    (l.foldl GroupDetail.merge GroupDetail.empty).net_balance
      = ((l.map PsbtDetail.incoming).sum : Int) - ((l.map PsbtDetail.outgoing).sum : Int) ∧
    ((l.foldl GroupDetail.merge GroupDetail.empty).outgoing
       = (l2.foldl GroupDetail.merge GroupDetail.empty).outgoing ∧
     (l.foldl GroupDetail.merge GroupDetail.empty).incoming
       = (l2.foldl GroupDetail.merge GroupDetail.empty).incoming ∧
     (l.foldl GroupDetail.merge GroupDetail.empty).fee
       = (l2.foldl GroupDetail.merge GroupDetail.empty).fee) := by
  have h1 := foldl_merge_totals l GroupDetail.empty
  have h2 := foldl_merge_totals l2 GroupDetail.empty
  refine ⟨foldl_merge_totals l g, ?_, ?_, ?_, ?_⟩
  · rw [GroupDetail.net_balance, h1.2.1, h1.1]
    simp [GroupDetail.empty]
  · rw [h1.1, h2.1, (hperm.map PsbtDetail.outgoing).sum_eq]
  · rw [h1.2.1, h2.2.1, (hperm.map PsbtDetail.incoming).sum_eq]
  · rw [h1.2.2, h2.2.2, (hperm.map PsbtDetail.fee).sum_eq]

/-- Witness for the merge totals: two concrete detail records merged in
both orders. -/
theorem groupDetail_merge_totals_witness :
    ([gdA, gdB].foldl GroupDetail.merge GroupDetail.empty).outgoing
      = GroupDetail.empty.outgoing + ([gdA, gdB].map PsbtDetail.outgoing).sum ∧
    ([gdA, gdB].foldl GroupDetail.merge GroupDetail.empty).fee
      = ([gdB, gdA].foldl GroupDetail.merge GroupDetail.empty).fee :=
  ⟨(groupDetail_merge_totals GroupDetail.empty [gdA, gdB] [gdB, gdA]
      (List.Perm.swap gdB gdA [])).1.1,
   (groupDetail_merge_totals GroupDetail.empty [gdA, gdB] [gdB, gdA]
      (List.Perm.swap gdB gdA [])).2.2.2.2⟩

/-! ## Ownership-index build failure (C6) -/

theorem addFrom_err (d : Descriptor) (e : ConversionError) :
    ∀ (i k start : Nat) (cache : List Script), i < k →
      d.derive (start + i) = .error e →
      (∀ j, j < i → (d.derive (start + j)).isOk = true) →
      ∃ cache2, MyScripts.addFrom d start k cache = (cache2, some e) ∧
        (i = 0 → cache2 = cache) := by
  intro i
  induction i with
  | zero =>
    intro k start cache hk he _
    cases k with
    | zero => exact absurd hk (Nat.not_lt_zero 0)
    | succ k =>
      refine ⟨cache, ?_, fun _ => rfl⟩
      simp [MyScripts.addFrom, show d.derive start = .error e by simpa using he]
  | succ i ih =>
    intro k start cache hk he hok
    cases k with
    | zero => exact absurd hk (Nat.not_lt_zero _)
    | succ k =>
      have h0 : (d.derive start).isOk = true := by
        have := hok 0 (Nat.succ_pos i); simpa using this
      obtain ⟨s, hs⟩ : ∃ s, d.derive start = .ok s := by
        cases hd : d.derive start with
        | error e2 => rw [hd] at h0; simp [Except.isOk, Except.toBool] at h0
        | ok s => exact ⟨s, rfl⟩
      have he2 : d.derive (start + 1 + i) = .error e := by
        have hx : start + 1 + i = start + (i + 1) := by omega
        rw [hx]; exact he
      have hok2 : ∀ j, j < i → (d.derive (start + 1 + j)).isOk = true := by
        intro j hj
        have hx : start + 1 + j = start + (j + 1) := by omega
        rw [hx]; exact hok (j + 1) (by omega)
      obtain ⟨cache2, heq, _⟩ := ih k (start + 1) (insertScript cache s) (by omega) he2 hok2
      exact ⟨cache2, by simp [MyScripts.addFrom, hs, heq],
        fun h => absurd h (Nat.succ_ne_zero i)⟩

theorem newLoop_err (d : Descriptor) (e : ConversionError) :
    ∀ (i k start : Nat) (cache : List Script), i < k →
      d.derive (start + i) = .error e →
      (∀ j, j < i → (d.derive (start + j)).isOk = true) →
      DescCache.newLoop d start k cache = .error e := by
  intro i
  induction i with
  | zero =>
    intro k start cache hk he _
    cases k with
    | zero => exact absurd hk (Nat.not_lt_zero 0)
    | succ k =>
      simp [DescCache.newLoop, show d.derive start = .error e by simpa using he]
  | succ i ih =>
    intro k start cache hk he hok
    cases k with
    | zero => exact absurd hk (Nat.not_lt_zero _)
    | succ k =>
      have h0 : (d.derive start).isOk = true := by
        have := hok 0 (Nat.succ_pos i); simpa using this
      obtain ⟨s, hs⟩ : ∃ s, d.derive start = .ok s := by
        cases hd : d.derive start with
        | error e2 => rw [hd] at h0; simp [Except.isOk, Except.toBool] at h0
        | ok s => exact ⟨s, rfl⟩
      have he2 : d.derive (start + 1 + i) = .error e := by
        have hx : start + 1 + i = start + (i + 1) := by omega
        rw [hx]; exact he
      have hok2 : ∀ j, j < i → (d.derive (start + 1 + j)).isOk = true := by
        intro j hj
        have hx : start + 1 + j = start + (j + 1) := by omega
        rw [hx]; exact hok (j + 1) (by omega)
      have := ih k (start + 1) (insertScript cache s) (by omega) he2 hok2
      simp [DescCache.newLoop, hs, this]

/-- C6 (amended): if derivation first fails at index `i < horizon`, the
add returns the `ConversionError` and does not record the descriptor
string, and `DescCache::new` aborts with the error producing no cache at
all; the ownership index is wholly unchanged when the failure is at
index 0 — but scripts derived at indices before a later failing index
remain inserted in the shared cache (see the counterexample), so the
membership predicate is unchanged only in the index-0 case. -/
theorem myScripts_add_failure_amended (ms : MyScripts) (d : Descriptor) (i : Nat)
    (e : ConversionError) (hi : i < ms.how_many_per_desc) (he : d.derive i = .error e)
    (hok : ∀ j, j < i → (d.derive j).isOk = true) :
    (ms.add d).2 = some e ∧
    (ms.add d).1.descriptors = ms.descriptors ∧
    (i = 0 → (ms.add d).1 = ms) ∧
    DescCache.new d ms.how_many_per_desc = .error e := by
  obtain ⟨cache2, heq, hzero⟩ := addFrom_err d e i ms.how_many_per_desc 0 ms.cache hi
    (by simpa using he) (fun j hj => by simpa using hok j hj)
  have hnew : DescCache.newLoop d 0 ms.how_many_per_desc [] = .error e :=
    newLoop_err d e i ms.how_many_per_desc 0 [] hi
      (by simpa using he) (fun j hj => by simpa using hok j hj)
  refine ⟨by simp [MyScripts.add, heq], by simp [MyScripts.add, heq], ?_,
    by simp [DescCache.new, hnew]⟩
  intro h0
  have hc := hzero h0
  subst hc
  simp only [MyScripts.add, heq]

/-- Counterexample to C6 as stated: with a descriptor deriving script 42
at index 0 and failing at index 1 (< horizon 2), the failed `add` returns
the error but the ownership index's membership predicate has changed —
script 42 is now owned although it was not before the call. -/
theorem myScripts_add_partial_cache_cex :
    (msTwo.add dBad).2 = some 7 ∧
    MyScripts.contains (msTwo.add dBad).1 42 = true ∧
    MyScripts.contains msTwo 42 = false := by
  decide

/-- Witness for the amended C6: a derivation failing already at index 0
leaves the ownership index untouched and aborts `DescCache::new`. -/
theorem myScripts_add_failure_amended_witness :
    (msTwo.add dFail0).2 = some 5 ∧
    (msTwo.add dFail0).1.descriptors = msTwo.descriptors ∧
    (0 = 0 → (msTwo.add dFail0).1 = msTwo) ∧
    DescCache.new dFail0 msTwo.how_many_per_desc = .error 5 :=
  myScripts_add_failure_amended msTwo dFail0 0 5 (by decide) rfl
    (fun j hj => absurd hj (Nat.not_lt_zero j))

/-! ## Strict merge (C10) -/

/-- C10: `Balances::merge` (strict variant): re-merging an already
recorded (txid, descriptor) pair fails with `MergeSame` and leaves the
whole state unchanged; merging a known txid under a new descriptor adds
outgoing and incoming but leaves the fee total unchanged; merging a new
txid adds all three totals and creates the binding — so each distinct
txid's fee is counted exactly once. -/
theorem balances_merge_strict (b : Balances) (other : Balance) (descs : List String) :
    (b.txids_descriptors.lookup other.txid = some descs →
       (other.descriptor ∈ descs → Balances.merge b other = (b, some .mergeSame)) ∧
       (other.descriptor ∉ descs →
          (Balances.merge b other).2 = none ∧
          (Balances.merge b other).1.outgoing = b.outgoing + other.outgoing ∧
          (Balances.merge b other).1.incoming = b.incoming + other.incoming ∧
          (Balances.merge b other).1.fee = b.fee)) ∧
    (b.txids_descriptors.lookup other.txid = none →
       (Balances.merge b other).2 = none ∧
       (Balances.merge b other).1.outgoing = b.outgoing + other.outgoing ∧
       (Balances.merge b other).1.incoming = b.incoming + other.incoming ∧
       (Balances.merge b other).1.fee = b.fee + other.fee) := by
  constructor
  · intro hl
    constructor
    · intro hmem
      simp [Balances.merge, hl, hmem]
    · intro hmem
      simp [Balances.merge, hl, hmem]
  · intro hl
    simp [Balances.merge, hl]

/-- Witness for the strict merge: a state with `("t", ["d0"])` recorded;
re-merging `("t", "d0")` is `MergeSame` with the state unchanged, and
merging `("t", "d1")` succeeds without adding the fee. -/
theorem balances_merge_strict_witness :
    Balances.merge bW balSame = (bW, some .mergeSame) ∧
    (Balances.merge bW balOther).1.fee = bW.fee ∧
    (Balances.merge bW balOther).2 = none := by
  have h1 := ((balances_merge_strict bW balSame ["d0"]).1 (by decide)).1 (by decide)
  have h2 := ((balances_merge_strict bW balOther ["d0"]).1 (by decide)).2 (by decide)
  exact ⟨h1, h2.2.2.2, h2.1⟩

/-! ## Multipath explosion (C4, C8) -/

/-- C4: whenever `explode_descriptor` succeeds on a descriptor containing
the multipath marker, the returned pair is exactly the input with every
occurrence of "<0;1>" replaced by "0" (external) resp. "1" (internal);
text without the marker is left unchanged; and on the two-marker string
"<0;1><0;1>" both occurrences are replaced independently, yielding "00"
and "11". -/
theorem explode_descriptor_replaces_marker :
    (∀ (parseDesc : List Char → Except Nat (List Nat)) (desc : List Char) (wpk : Bool)
       (r : ExplodedDesc),
       containsSlice MULTIPATH desc = true →
       explode_descriptor parseDesc desc wpk = .ok r →
       r.external = replaceAll MULTIPATH ['0'] desc ∧
       r.internal = replaceAll MULTIPATH ['1'] desc) ∧
    (∀ (pat rep l : List Char), containsSlice pat l = false → replaceAll pat rep l = l) ∧
    (replaceAll MULTIPATH ['0'] (MULTIPATH ++ MULTIPATH) = ['0', '0'] ∧
     replaceAll MULTIPATH ['1'] (MULTIPATH ++ MULTIPATH) = ['1', '1']) := by
  refine ⟨?_, ?_, by decide, by decide⟩
  · intro parseDesc desc wpk r hc hok
    cases hp : parseDesc (replaceAll MULTIPATH ['0'] desc) with
    | error e => simp [explode_descriptor, hc, hp] at hok
    | ok km =>
      cases wpk <;> rcases km with _ | ⟨k0, ks⟩ <;>
        simp [explode_descriptor, hc, hp] at hok <;>
        simp [← hok]
  · intro pat rep l
    induction l with
    | nil => intro h; rfl
    | cons c rest ih =>
      intro h
      simp only [containsSlice, Bool.or_eq_false_iff] at h
      have hcond : ¬ (pat ≠ [] ∧ pat.isPrefixOf (c :: rest) = true) := by
        intro hx
        rw [h.1] at hx
        exact Bool.false_ne_true hx.2
      show replaceAllF pat rep (c :: rest).length (c :: rest) = c :: rest
      simp only [List.length_cons, replaceAllF]
      rw [if_neg hcond]
      exact congrArg (c :: ·) (ih h.2)

/-- Witness for the explosion shape: a parse oracle that accepts, on the
two-marker string. -/
theorem explode_descriptor_replaces_marker_witness :
    (ExplodedDesc.mk ['1', '1'] ['0', '0']).external
        = replaceAll MULTIPATH ['0'] (MULTIPATH ++ MULTIPATH) ∧
    (ExplodedDesc.mk ['1', '1'] ['0', '0']).internal
        = replaceAll MULTIPATH ['1'] (MULTIPATH ++ MULTIPATH) :=
  explode_descriptor_replaces_marker.1 parseOk (MULTIPATH ++ MULTIPATH) true
    (ExplodedDesc.mk ['1', '1'] ['0', '0']) (by decide) rfl

/-- C8: `explode_descriptor` fails with `DescriptorIsntMultipath` exactly
when the marker "<0;1>" is absent; when the marker is present and the
external variant parses to a key map, it fails with
`WithPrivateKeyFlagButPublicDescriptor` exactly when the private-key flag
is set and the key map is empty, fails with
`WithoutPrivateKeyFlagButSecretDescriptor` exactly when the flag is unset
and the key map is non-empty, and otherwise succeeds. -/
theorem explode_descriptor_errors (parseDesc : List Char → Except Nat (List Nat))
    (desc : List Char) (wpk : Bool) :
    (explode_descriptor parseDesc desc wpk = .error .descriptorIsntMultipath ↔
       containsSlice MULTIPATH desc = false) ∧
    (∀ km, containsSlice MULTIPATH desc = true →
       parseDesc (replaceAll MULTIPATH ['0'] desc) = .ok km →
       ((explode_descriptor parseDesc desc wpk = .error .withPrivateKeyFlagButPublicDescriptor ↔
           wpk = true ∧ km = []) ∧
        (explode_descriptor parseDesc desc wpk
            = .error .withoutPrivateKeyFlagButSecretDescriptor ↔
           wpk = false ∧ km ≠ []) ∧
        ((wpk = true ∧ km ≠ []) ∨ (wpk = false ∧ km = []) →
           explode_descriptor parseDesc desc wpk
             = .ok { internal := replaceAll MULTIPATH ['1'] desc,
                     external := replaceAll MULTIPATH ['0'] desc }))) := by
  by_cases hc : containsSlice MULTIPATH desc = true
  · constructor
    · rw [hc]
      constructor
      · intro h
        cases hp : parseDesc (replaceAll MULTIPATH ['0'] desc) with
        | error e => simp [explode_descriptor, hc, hp] at h
        | ok km =>
          cases wpk <;> rcases km with _ | ⟨k0, ks⟩ <;>
            simp [explode_descriptor, hc, hp] at h
      · intro h; exact absurd h (by simp)
    · intro km hc2 hp
      cases wpk <;> rcases km with _ | ⟨k0, ks⟩ <;>
        simp [explode_descriptor, hc, hp]
  · have hcf : containsSlice MULTIPATH desc = false := by
      cases hcv : containsSlice MULTIPATH desc with
      | false => rfl
      | true => exact absurd hcv hc
    constructor
    · simp [explode_descriptor, hcf]
    · intro km hc2 hp
      exact absurd hc2 hc

/-- Witness for the explosion error taxonomy: on the bare marker string
with a secret-parsing oracle and the private-key flag set, explosion
succeeds; without the marker it is `DescriptorIsntMultipath`. -/
theorem explode_descriptor_errors_witness :
    explode_descriptor parseOk MULTIPATH true
        = .ok { internal := replaceAll MULTIPATH ['1'] MULTIPATH,
                external := replaceAll MULTIPATH ['0'] MULTIPATH } ∧
    (explode_descriptor parseOk ['x'] true = .error .descriptorIsntMultipath) :=
  ⟨((explode_descriptor_errors parseOk MULTIPATH true).2 [1] (by decide) rfl).2.2
      (Or.inl ⟨rfl, by decide⟩),
   (explode_descriptor_errors parseOk ['x'] true).1.mpr (by decide)⟩

/-! ## Rendering (C7) -/

theorem processInputs_ok_get (ms : MyScripts) :
    ∀ (l : List PsbtInput) (start sumIn outgoing : Nat) (lines : List String),
      processInputs ms start l = .ok (sumIn, outgoing, lines) →
      lines.length = l.length ∧
      (∀ j inp, l.get? j = some inp → ∃ txo, inp.witness_utxo = some txo ∧
         lines.get? j = some (inLine (start + j) txo.value inp.previous_output
           (MyScripts.contains ms txo.script_pubkey))) := by
  intro l
  induction l with
  | nil =>
    intro start sumIn outgoing lines h
    simp only [processInputs, Except.ok.injEq, Prod.mk.injEq] at h
    obtain ⟨-, -, rfl⟩ := h
    exact ⟨rfl, by intro j inp hj; simp at hj⟩
  | cons inp0 rest ih =>
    intro start sumIn outgoing lines h
    cases hw : inp0.witness_utxo with
    | none => simp [processInputs, hw] at h
    | some txo =>
      cases hr : processInputs ms (start + 1) rest with
      | error e => simp [processInputs, hw, hr] at h
      | ok trip =>
        obtain ⟨si, og, ls⟩ := trip
        simp only [processInputs, hw, hr, Except.ok.injEq, Prod.mk.injEq] at h
        obtain ⟨-, -, rfl⟩ := h
        obtain ⟨hlen, hget⟩ := ih (start + 1) si og ls hr
        constructor
        · simp [hlen]
        · intro j inp hj
          cases j with
          | zero =>
            simp only [List.get?_cons_zero, Option.some.injEq] at hj
            subst hj
            exact ⟨txo, hw, by simp⟩
          | succ j =>
            simp only [List.get?_cons_succ] at hj ⊢
            obtain ⟨txo2, hwu, hline⟩ := hget j inp hj
            refine ⟨txo2, hwu, ?_⟩
            have hx : start + 1 + j = start + (j + 1) := by omega
            rw [← hx]
            exact hline

theorem processOutputs_get (ms : MyScripts) (addr : Script → String) :
    ∀ (l : List TxOut) (start : Nat),
      (processOutputs ms addr start l).2.2.length = l.length ∧
      (∀ j txo, l.get? j = some txo →
        (processOutputs ms addr start l).2.2.get? j
          = some (outLine (start + j) txo.value (addr txo.script_pubkey)
              (MyScripts.contains ms txo.script_pubkey))) := by
  intro l
  induction l with
  | nil =>
    intro start
    exact ⟨rfl, by intro j txo hj; simp at hj⟩
  | cons t0 rest ih =>
    intro start
    obtain ⟨hlen, hget⟩ := ih (start + 1)
    constructor
    · simp [processOutputs, hlen]
    · intro j txo hj
      cases j with
      | zero =>
        simp only [List.get?_cons_zero, Option.some.injEq] at hj
        subst hj
        simp [processOutputs]
      | succ j =>
        simp only [List.get?_cons_succ] at hj
        have hline := hget j txo hj
        have hx : start + 1 + j = start + (j + 1) := by omega
        rw [← hx]
        simpa [processOutputs] using hline

theorem processInputs_stripSigs (ms : MyScripts) :
    ∀ (l : List PsbtInput) (start : Nat),
      processInputs ms start (l.map stripSigs) = processInputs ms start l := by
  intro l
  induction l with
  | nil => intro start; rfl
  | cons inp0 rest ih =>
    intro start
    cases hw : inp0.witness_utxo with
    | none => simp [processInputs, stripSigs, hw]
    | some txo => simp [processInputs, stripSigs, hw, ih]

/-- C7 (amended): on every successfully classified PSBT, the `j`-th
rendered input line is
`in<right-aligned-3 j>: <13-wide 9-decimal amount> <prevout>` suffixed by
`" *"` exactly when the input's script is owned, and the `j`-th rendered
output line is `out<right-aligned-2 j>: <amount> <address>` suffixed by
`" *"` exactly when the output's script is owned (the ownership flag is
the only suffix source); partial signatures are never inspected —
stripping them from every input leaves the whole classification,
rendering included, unchanged. The suffixes `" m"`/`" s"` of the claim do
not occur (see the counterexample). -/
theorem psbt_detail_render_amended (ms : MyScripts) (addr : Script → String) (i : Nat)
    (psbt : Psbt) :
    (∀ detail, psbt_detail i psbt ms addr = some (.ok detail) →
       detail.inputs.length = psbt.inputs.length ∧
       detail.outputs.length = psbt.outputs.length ∧
       (∀ j inp, psbt.inputs.get? j = some inp →
          ∃ txo, inp.witness_utxo = some txo ∧
            detail.inputs.get? j = some (inLine j txo.value inp.previous_output
              (MyScripts.contains ms txo.script_pubkey))) ∧
       (∀ j txo, psbt.outputs.get? j = some txo →
          detail.outputs.get? j = some (outLine j txo.value (addr txo.script_pubkey)
            (MyScripts.contains ms txo.script_pubkey)))) ∧
    psbt_detail i { psbt with inputs := psbt.inputs.map stripSigs } ms addr
      = psbt_detail i psbt ms addr := by
  constructor
  · intro detail h
    cases hin : processInputs ms 0 psbt.inputs with
    | error e => simp [psbt_detail, hin] at h
    | ok trip =>
      obtain ⟨si, og, ls⟩ := trip
      by_cases hle : (processOutputs ms addr 0 psbt.outputs).1 ≤ si
      · simp only [psbt_detail, hin, hle, if_true, Option.some.injEq, Except.ok.injEq] at h
        subst h
        obtain ⟨hilen, higet⟩ := processInputs_ok_get ms psbt.inputs 0 si og ls hin
        obtain ⟨holen, hoget⟩ := processOutputs_get ms addr psbt.outputs 0
        refine ⟨hilen, holen, ?_, ?_⟩
        · intro j inp hj
          obtain ⟨txo, hwu, hline⟩ := higet j inp hj
          exact ⟨txo, hwu, by simpa using hline⟩
        · intro j txo hj
          have hline := hoget j txo hj
          simpa using hline
      · simp [psbt_detail, hin, hle] at h
  · have hstrip := processInputs_stripSigs ms psbt.inputs 0
    simp [psbt_detail, hstrip]

/-- Counterexample to C7 as stated: classifying a PSBT whose single
owned input carries a partial signature renders the input line with the
suffix `" *"` — not `" m"`, and no `" s"` despite the signature — and the
owned output line likewise ends in `" *"`, not `" m"`. -/
theorem psbt_detail_render_suffix_cex :
    (okPart (psbt_detail 0 psbtSig msC addr0)).map PsbtDetail.inputs
        = some ["in  0:   0.000010000 pp:0 *"] ∧
    (okPart (psbt_detail 0 psbtSig msC addr0)).map PsbtDetail.outputs
        = some ["out 0:   0.000006000 addr6 *"] ∧
    MyScripts.contains msC 5 = true ∧
    psbtSig.inputs.all (fun inp => !inp.partial_sigs.isEmpty) = true ∧
    List.isSuffixOf (" m".toList) ("in  0:   0.000010000 pp:0 *".toList) = false ∧
    List.isSuffixOf (" s".toList) ("in  0:   0.000010000 pp:0 *".toList) = false ∧
    List.isSuffixOf (" m".toList) ("out 0:   0.000006000 addr6 *".toList) = false := by
  decide

/-- Witness for the amended rendering theorem at the concrete fixture. -/
theorem psbt_detail_render_amended_witness :
    detailSig.inputs.length = psbtSig.inputs.length ∧
    detailSig.outputs.length = psbtSig.outputs.length :=
  ⟨((psbt_detail_render_amended msC addr0 0 psbtSig).1 detailSig rfl).1,
   ((psbt_detail_render_amended msC addr0 0 psbtSig).1 detailSig rfl).2.1⟩

end Dinasty
